import Mathlib

/-!
Verification development for the zephyr CI orchestrator.

This file shallowly embeds the parts of the TypeScript source that the
statements below are about:

* `packages/core/src/matrix/expand.ts` (matrix expansion, interpolation),
* `packages/core/src/executor/runner.ts` (step/job execution),
* `packages/server/src/scheduler/index.ts` (queueing and dispatch),
* `packages/vm/src/pool/warm-pool.ts` (the warm VM pool),
* the `secret`/`output`/`matrix`/`needs` helpers of `packages/config`.

JavaScript objects used as string-keyed records are embedded as
insertion-ordered association lists with distinct keys; JS matrix scalars
(string | number | boolean) are a tagged `Scalar`.  Asynchronous effects
(timers, spawned processes, background pool replenishment) are modelled by
explicit parameters: a spawned process is described by the exit code, the
stream output and the running time it would exhibit, and each state-mutating
operation is a function from state to state.  The storage backend
(`@zephyr-ci/storage`) is not part of the sources; the few operations the
scheduler calls are modelled from the spec where noted.
-/

namespace Zephyr

/-- A JS matrix scalar: `string | number | boolean`.  Numbers that occur in
matrix configurations are integers, embedded as `Int`. -/
inductive Scalar where
  | s (v : String)
  | n (v : Int)
  | b (v : Bool)
deriving DecidableEq, Repr

/-- JS `String(v)` on a scalar. -/
def scalarString : Scalar → String
  | .s v => v
  | .n v => toString v
  | .b v => if v then "true" else "false"

/-- A string-keyed record of scalars (one matrix combination, an `exclude`
or `include` entry), in key-insertion order. -/
abbrev Rec := List (String × Scalar)

/-- A string-keyed record of strings (an environment), in key-insertion
order. -/
abbrev Env := List (String × String)

/-- JS property read `r[k]` (`none` = `undefined`). -/
def lookupRec (r : Rec) (k : String) : Option Scalar :=
  (r.find? (fun p => p.1 == k)).map (fun p => p.2)

/-- JS property read `e[k]` on an environment. -/
def lookupEnv (e : Env) (k : String) : Option String :=
  (e.find? (fun p => p.1 == k)).map (fun p => p.2)

/-- JS property write `e[k] = v`: updates the value in place if the key
exists, otherwise appends the key at the end (object insertion order). -/
def setAssoc {α : Type} (e : List (String × α)) (k : String) (v : α) :
    List (String × α) :=
  if e.any (fun p => p.1 == k) then
    e.map (fun p => if p.1 == k then (k, v) else p)
  else
    e ++ [(k, v)]

/-- JS object spread `{...a, ...b}`: entries of `b` override `a`. -/
def mergeEnv (a b : Env) : Env :=
  b.foldl (fun acc p => setAssoc acc p.1 p.2) a

/-! ## Matrix expansion (`packages/core/src/matrix/expand.ts`) -/

/-- `MatrixConfig`: the per-job matrix declaration.  `values` keeps the
key-insertion order of the JS object. -/
structure MatrixConfig where
  values : List (String × List Scalar)
  exclude : List Rec := []
  /-- The source field is named `include`, a keyword in Lean. -/
  includes : List Rec := []
  maxParallel : Option Nat := none
deriving DecidableEq, Repr

/-- `MatrixCombination` from `expand.ts`. -/
structure MatrixCombination where
  index : Nat
  values : Rec
  nameSuffix : String
deriving DecidableEq, Repr

structure RunnerConfig where
  image : String
deriving DecidableEq, Repr

/-- The fields of `JobDefinition` that matrix expansion and the scheduler
read: name, runner, `dependsOn` and the optional matrix. -/
structure JobDefinition where
  name : String
  runner : RunnerConfig
  dependsOn : List String := []
  matrix : Option MatrixConfig := none
deriving DecidableEq, Repr

/-- `ExpandedJob` from `expand.ts`. -/
structure ExpandedJob where
  job : JobDefinition
  matrix : Option MatrixCombination
  instanceId : String
  displayName : String
deriving DecidableEq, Repr

/-- `cartesianProduct(values)`: the full Cartesian product over the
dimensions in key order.  The source special-cases a single dimension;
the branch is kept. -/
def cartesianProduct : List (String × List Scalar) → List Rec
  | [] => [[]]
  | (first, firstValues) :: rest =>
    if rest.isEmpty then
      firstValues.map (fun v => [(first, v)])
    else
      firstValues.flatMap (fun v =>
        (cartesianProduct rest).map (fun restCombo => (first, v) :: restCombo))

/-- `Object.keys(m).every(key => combo[key] === m[key])`: the combination
agrees with `m` on every key of `m`. -/
def matchesAll (m : Rec) (combo : Rec) : Bool :=
  m.all (fun p => lookupRec combo p.1 == some p.2)

/-- `shouldExclude(combo, exclusions)` from `expand.ts`. -/
def shouldExclude (combo : Rec) (exclusions : List Rec) : Bool :=
  exclusions.any (fun exclusion => matchesAll exclusion combo)

/-- `generateNameSuffix(combo)`: comma-joined `key=value` pairs. -/
def generateNameSuffix (combo : Rec) : String :=
  String.intercalate ", " (combo.map (fun p => p.1 ++ "=" ++ scalarString p.2))

/-- The synthesised combination for an `include` entry: every declared
dimension filled from the inclusion or, when missing, the dimension's first
listed value, then the inclusion's extra (non-dimension) keys appended —
`Object.assign` over a record that already holds every dimension.  The
source reads `values[dim]![0]!`; a dimension with an empty value list would
produce JS `undefined` there, and the embedding returns the empty string
scalar in that (never exercised) case. -/
def fillCombo (values : List (String × List Scalar)) (inclusion : Rec) : Rec :=
  (values.map (fun d =>
    (d.1, (lookupRec inclusion d.1).getD (d.2.headD (Scalar.s ""))))) ++
  inclusion.filter (fun p => !(values.any (fun d => d.1 == p.1)))

/-- The `include` loop of `generateCombinations`: each inclusion that does
not already match an existing combination on its specified keys is appended
(filled out by `fillCombo`); the check runs against the evolving list. -/
def applyIncludes (values : List (String × List Scalar))
    (combos : List Rec) (incs : List Rec) : List Rec :=
  incs.foldl (fun acc inclusion =>
    if acc.any (fun combo => matchesAll inclusion combo) then acc
    else acc ++ [fillCombo values inclusion]) combos

/-- `generateCombinations(matrix)` from `expand.ts`.  `maxParallel` is read
but (as in the source) has no effect on the result. -/
def generateCombinations (matrix : MatrixConfig) : List MatrixCombination :=
  if matrix.values.isEmpty then []
  else
    let combos := cartesianProduct matrix.values
    let combos := combos.filter (fun combo => !shouldExclude combo matrix.exclude)
    let combos := applyIncludes matrix.values combos matrix.includes
    (combos.enum).map (fun p => ⟨p.1, p.2, generateNameSuffix p.2⟩)

/-- `expandMatrix(job)` from `expand.ts`. -/
def expandMatrix (job : JobDefinition) : List ExpandedJob :=
  match job.matrix with
  | none => [⟨job, none, job.name, job.name⟩]
  | some m =>
    (generateCombinations m).map (fun combo =>
      ⟨job, some combo, job.name ++ "-" ++ combo.nameSuffix,
        job.name ++ " (" ++ combo.nameSuffix ++ ")"⟩)

/-- `expandPipelineJobs(jobs)` from `expand.ts`. -/
def expandPipelineJobs (jobs : List JobDefinition) : List ExpandedJob :=
  jobs.flatMap expandMatrix

/-! ## Matrix interpolation (`expand.ts`) and the config helpers
(`packages/config`) -/

/-- JS `\w`: `[A-Za-z0-9_]`. -/
def isWordChar (c : Char) : Bool :=
  c.isAlphanum || c == '_'

/-- JS `\s` (the ASCII whitespace characters). -/
def isSpaceChar (c : Char) : Bool :=
  c == ' ' || c == '\t' || c == '\n' || c == '\r' || c == '\x0b' || c == '\x0c'

/-- The replacement the `interpolateMatrix` callback produces for a captured
key: `String(value)` when the key is bound, the empty string otherwise. -/
def matrixReplacement (m : Rec) (key : String) : String :=
  match lookupRec m key with
  | some v => scalarString v
  | none => ""

/-- One attempt of the regex `\$\{\{\s*matrix\.(\w+)\s*\}\}` at the head of
the character list.  On a match, returns the replacement text and the
remainder after the match.  Greedy scanning without backtracking coincides
with the regex here because a word character is never whitespace or a
brace. -/
def tryMatrixMatch (m : Rec) (cs : List Char) : Option (List Char × List Char) :=
  match cs with
  | '$' :: '\x7b' :: '\x7b' :: rest =>
    match rest.dropWhile isSpaceChar with
    | 'm' :: 'a' :: 't' :: 'r' :: 'i' :: 'x' :: '.' :: rest2 =>
      let key := rest2.takeWhile isWordChar
      if key.isEmpty then none
      else
        match (rest2.dropWhile isWordChar).dropWhile isSpaceChar with
        | '\x7d' :: '\x7d' :: rest3 =>
          some ((matrixReplacement m ⟨key⟩).data, rest3)
        | _ => none
    | _ => none
  | _ => none

/-- Global scan of `text.replace(regex, cb)`: leftmost matches, continuing
after each match.  `fuel` bounds the recursion; every step consumes at
least one character, so `cs.length` fuel suffices. -/
def interpGo (m : Rec) : Nat → List Char → List Char
  | _, [] => []
  | 0, cs => cs
  | fuel + 1, c :: rest =>
    match tryMatrixMatch m (c :: rest) with
    | some (repl, rest2) => repl ++ interpGo m fuel rest2
    | none => c :: interpGo m fuel rest

/-- `interpolateMatrix(text, matrix)` from `expand.ts`: replaces every
`$\x7b\x7b matrix.<key> \x7d\x7d` placeholder (with `\w+` keys) by the
stringified binding. -/
def interpolateMatrix (text : String) (m : Rec) : String :=
  ⟨interpGo m text.data.length text.data⟩

/-- `applyMatrixToEnv(env, matrix)` from `expand.ts`. -/
def applyMatrixToEnv (env : Env) (m : Rec) : Env :=
  (env.map (fun p => (p.1, interpolateMatrix p.2 m))) ++
  (m.map (fun p => ("MATRIX_" ++ p.1.toUpper, scalarString p.2)))

/-- `secret(name)` from `packages/config`. -/
def secret (name : String) : String :=
  "$\x7b\x7b secrets." ++ name ++ " \x7d\x7d"

/-- `output(stepId, outputName)` from `packages/config`. -/
def output (stepId : String) (outputName : String) : String :=
  "$\x7b\x7b steps." ++ stepId ++ ".outputs." ++ outputName ++ " \x7d\x7d"

/-- `matrix(key)` from `packages/config`. -/
def matrix (key : String) : String :=
  "$\x7b\x7b matrix." ++ key ++ " \x7d\x7d"

/-- `needs(jobName, outputName)` from `packages/config`. -/
def needs (jobName : String) (outputName : String) : String :=
  "$\x7b\x7b needs." ++ jobName ++ ".outputs." ++ outputName ++ " \x7d\x7d"

/-! ## Step executor (`packages/core/src/executor/runner.ts`)

A spawned process is abstracted by the behaviour it would exhibit: exit
code, the stream content read before the process ends, and its running
time.  Timers (`setTimeout`) become a comparison of that running time
against the declared timeout.  The logger, wall-clock durations and the
working directory are side effects outside the embedding. -/

/-- Step and job statuses. -/
inductive Status where
  | pending | ready | running | success | failure | skipped | cancelled
deriving DecidableEq, Repr

/-- The observable behaviour of the process a `run` step spawns:
`shell -c command` exits with `exitCode` after `durationMs`, having
produced `procOutput` on its streams. -/
structure ProcBehavior where
  exitCode : Int
  procOutput : String
  durationMs : Nat
deriving DecidableEq, Repr

/-- `run` or `setup` step payload. -/
inductive StepKind where
  | run (command : String) (shell : Option String) (behavior : ProcBehavior)
  | setup (runtime : String) (version : String)
deriving DecidableEq, Repr

/-- `StepDefinition` fields the runner reads.  `condition` is the `if`
field: `some b` is a function condition already evaluated to `b`, `none`
is an absent condition (string conditions are not evaluated by the
source). `timeout` is in seconds. -/
structure StepDef where
  name : String
  id : Option String := none
  env : Env := []
  workdir : Option String := none
  continueOnError : Bool := false
  timeout : Option Nat := none
  condition : Option Bool := none
  kind : StepKind
deriving DecidableEq, Repr

/-- `StepResult`: `status`, `outcome` and the extracted outputs. -/
structure StepResult where
  status : Status
  outcome : Status
  outputs : Env
deriving DecidableEq, Repr

/-- `runCommand`: if a timeout is declared and the process is still running
at `timeout * 1000` ms, the kill timer fires: the reported exit code is 124
and the timeout marker is appended to the output accumulated so far. -/
def runCommand (behavior : ProcBehavior) (timeout : Option Nat) : Int × String :=
  match timeout with
  | some t =>
    if behavior.durationMs > t * 1000 then
      (124, behavior.procOutput ++ "\n[TIMEOUT] Step exceeded timeout limit")
    else
      (behavior.exitCode, behavior.procOutput)
  | none => (behavior.exitCode, behavior.procOutput)

/-- One attempt of `::set-output name=([^:]+)::(.+)` at the head of the
character list.  `[^:]+` is a maximal nonempty colon-free run (backtracking
cannot help, since a shorter capture leaves a non-colon where `::` is
required), `(.+)` a maximal nonempty newline-free run. -/
def matchSetOutput (cs : List Char) : Option (String × String × List Char) :=
  let marker := "::set-output name=".data
  if cs.take marker.length = marker then
    let c1 := cs.drop marker.length
    let nm := c1.takeWhile (fun c => c != ':')
    if nm.isEmpty then none
    else
      match c1.dropWhile (fun c => c != ':') with
      | ':' :: ':' :: r2 =>
        let v := r2.takeWhile (fun c => c != '\n')
        if v.isEmpty then none
        else some (⟨nm⟩, ⟨v⟩, r2.dropWhile (fun c => c != '\n'))
      | _ => none
  else none

/-- Global scan of the output-extraction regex: leftmost matches, resuming
after each match, advancing one character on failure. -/
def parseGo : Nat → List Char → List (String × String)
  | _, [] => []
  | 0, _ => []
  | fuel + 1, c :: rest =>
    match matchSetOutput (c :: rest) with
    | some (nm, v, rest2) => (nm, v) :: parseGo fuel rest2
    | none => parseGo fuel rest

/-- All `::set-output name=<name>::<value>` matches in an output buffer, in
match order. -/
def parseOutputs (out : String) : List (String × String) :=
  parseGo out.data.length out.data

/-- The env a step's process is started with (line 144 of `runner.ts`):
job env overridden by step env.  No placeholder of any kind is rewritten
here. -/
def composeStepEnv (jobEnv : Env) (step : StepDef) : Env :=
  mergeEnv jobEnv step.env

/-- `runStep`: dispatch on the step type, map the exit code to
`outcome`/`status` (honouring `continueOnError`), and collect the parsed
outputs (later matches override earlier ones of the same name, as JS
assignment does).  `setup` steps are success stubs. -/
def runStep (step : StepDef) : StepResult :=
  match step.kind with
  | .run _ _ behavior =>
    let res := runCommand behavior step.timeout
    let success := res.1 == 0
    let status : Status := if success then .success else .failure
    let outputs := (parseOutputs res.2).foldl (fun acc p => setAssoc acc p.1 p.2) []
    { status := if step.continueOnError && !success then .success else status
      outcome := status
      outputs := outputs }
  | .setup _ _ => { status := .success, outcome := .success, outputs := [] }

/-- The `JobDefinition` fields `runJob` reads. -/
structure ExecJobDef where
  name : String
  env : Env := []
  steps : List StepDef
deriving DecidableEq, Repr

/-- `JobRunResult`: final status, results keyed by step id, and the
per-step `(name, status)` timing entries (durations are wall clock and are
not modelled). -/
structure JobRunResult where
  status : Status
  steps : List (String × StepResult)
  stepTimings : List (String × Status)
deriving DecidableEq, Repr

/-- The skipped step result. -/
def skippedResult : StepResult :=
  { status := .skipped, outcome := .skipped, outputs := [] }

/-- The env `runJob` composes for the job: caller env, then job env, then
`CI=true, ZEPHYR=true`. -/
def jobBaseEnv (callerEnv : Env) (job : ExecJobDef) : Env :=
  mergeEnv (mergeEnv callerEnv job.env) [("CI", "true"), ("ZEPHYR", "true")]

/-- The step loop of `runJob`: condition gate (skipped with no timing
entry), failure gate (skipped with a timing entry), then execution; a step
whose `outcome` is `failure` without `continueOnError` marks the job
failed. -/
def runJobGo : List StepDef → Bool → List (String × StepResult) →
    List (String × Status) →
    Bool × List (String × StepResult) × List (String × Status)
  | [], jobFailed, stepResults, stepTimings => (jobFailed, stepResults, stepTimings)
  | step :: rest, jobFailed, stepResults, stepTimings =>
    if step.condition == some false then
      let stepResults := match step.id with
        | some sid => setAssoc stepResults sid skippedResult
        | none => stepResults
      runJobGo rest jobFailed stepResults stepTimings
    else if jobFailed && !step.continueOnError then
      let stepResults := match step.id with
        | some sid => setAssoc stepResults sid skippedResult
        | none => stepResults
      runJobGo rest jobFailed stepResults (stepTimings ++ [(step.name, .skipped)])
    else
      let result := runStep step
      let stepTimings := stepTimings ++ [(step.name, result.status)]
      let stepResults := match step.id with
        | some sid => setAssoc stepResults sid result
        | none => stepResults
      runJobGo rest
        (jobFailed || (result.outcome == .failure && !step.continueOnError))
        stepResults stepTimings

/-- `runJob(job, options)`: run the steps in order; the job status is
`failure` iff the loop marked it failed.  The environment does not influence
the abstracted process behaviour, so it is not a parameter here; what each
process is started with is `composeStepEnv (jobBaseEnv callerEnv job) step`,
stated separately. -/
def runJob (job : ExecJobDef) : JobRunResult :=
  let res := runJobGo job.steps false [] []
  { status := if res.1 then .failure else .success
    steps := res.2.1
    stepTimings := res.2.2 }

/-! ## Scheduler and store (`packages/server/src/scheduler/index.ts`)

The storage backend (`@zephyr-ci/storage`) is not among the sources; its
operations are modelled from the spec (§6, §3): rows live in insertion
order, `createPipelineRun` persists the run with `status=pending`, created
jobs start `pending`, `getPendingJobs` and `getJobsForPipelineRun` return
rows in insertion order.  Asynchronous job execution is modelled by its
first persistent effect, the `pending → running` status update. -/

/-- A pipeline-run row. -/
structure RunRecord where
  id : String
  projectId : String
  pipelineName : String
  status : Status
deriving DecidableEq, Repr

/-- A job row as `createJob` persists it: the scheduler's call site passes
id, run id, name and runner image only.  `dependsOnDef` is ghost state — the
`dependsOn` list of the job's definition, carried to state the dispatch
invariant; the scheduler never reads it. -/
structure JobRow where
  id : String
  pipelineRunId : String
  name : String
  runnerImage : String
  dependsOnDef : List String := []
  status : Status
deriving DecidableEq, Repr

/-- The persistent store: pipeline-run rows and job rows, in insertion
order. -/
structure Store where
  runs : List RunRecord
  jobs : List JobRow
deriving DecidableEq, Repr

/-- Modelled from the spec: `createPipelineRun` (store op, §6) persists the
pipeline run with `status=pending` (§4.5). -/
def createPipelineRun (store : Store) (id projectId pipelineName : String) : Store :=
  { store with runs := store.runs ++ [⟨id, projectId, pipelineName, .pending⟩] }

/-- Modelled from the spec: `createJob` (store op, §6) persists a job row;
jobs are created `pending` (§3).  The caller passes no dependency list, so
the row's ghost `dependsOnDef` is the definition's list and its persisted
shape carries no dependencies. -/
def createJob (store : Store) (row : JobRow) : Store :=
  { store with jobs := store.jobs ++ [{ row with status := .pending }] }

/-- A pipeline as `resolvePipelines` returns it (static list case). -/
structure PipelineDefinition where
  name : String
  jobs : List JobDefinition
deriving DecidableEq, Repr

/-- A resolved config: the pipeline list (`resolvePipelines` on a static
config is the identity). -/
structure Config where
  pipelines : List PipelineDefinition
deriving DecidableEq, Repr

/-- `resolvePipelines(config, ctx)` for a static pipeline list. -/
def resolvePipelines (config : Config) : List PipelineDefinition :=
  config.pipelines

/-- The fields of `QueuedPipelineRun` the queueing path reads. -/
structure QueuedRun where
  id : String
  projectId : String
  pipelineName : String
deriving DecidableEq, Repr

/-- `queuePipelineRun(run)`: persist the run record, then load the config
(`loadedConfig` is the result of `loadConfig`, `Except.error` when the
config is invalid or missing), resolve pipelines, find the named pipeline,
and persist one job row per `pipeline.jobs` entry with id
`run.id ++ "-" ++ jobDef.name`.  Errors thrown after the run record is
written leave it in the store. -/
def queuePipelineRun (store : Store) (loadedConfig : Except String Config)
    (run : QueuedRun) : Except String String × Store :=
  let store1 := createPipelineRun store run.id run.projectId run.pipelineName
  match loadedConfig with
  | .error e => (.error e, store1)
  | .ok config =>
    match (resolvePipelines config).find? (fun p => p.name == run.pipelineName) with
    | none => (.error ("Pipeline '" ++ run.pipelineName ++ "' not found"), store1)
    | some pipeline =>
      let store2 := pipeline.jobs.foldl (fun st jobDef =>
        createJob st
          { id := run.id ++ "-" ++ jobDef.name
            pipelineRunId := run.id
            name := jobDef.name
            runnerImage := jobDef.runner.image
            dependsOnDef := jobDef.dependsOn
            status := .pending }) store1
      (.ok run.id, store2)

/-- Modelled from the spec: `getJobsForPipelineRun` (store op, §6) returns
the run's job rows in insertion order. -/
def getJobsForPipelineRun (store : Store) (runId : String) : List JobRow :=
  store.jobs.filter (fun j => j.pipelineRunId == runId)

/-- Modelled from the spec: `getPendingJobs(limit)` (store op, §6) returns
up to `limit` rows with stored status `pending`, in insertion order. -/
def getPendingJobs (store : Store) (limit : Nat) : List JobRow :=
  (store.jobs.filter (fun j => j.status == .pending)).take limit

/-- Update a job row's status (`updateJobStatus`). -/
def updateJobStatus (store : Store) (jobId : String) (status : Status) : Store :=
  { store with jobs := store.jobs.map (fun j =>
      if j.id == jobId then { j with status := status } else j) }

/-- `canJobRun(job)`: the run must exist, and the job must be the first
pending job of its pipeline run in row order — the source's placeholder
does not consult `dependsOn` (its TODO says so). -/
def canJobRun (store : Store) (job : JobRow) : Bool :=
  match store.runs.find? (fun r => r.id == job.pipelineRunId) with
  | none => false
  | some _ =>
    let allJobs := getJobsForPipelineRun store job.pipelineRunId
    let pendingJobs := allJobs.filter (fun j => j.status == .pending)
    (pendingJobs.head?.map (fun j => j.id)) == some job.id

/-- One tick of `processQueue`: with free capacity, fetch pending jobs and
dispatch each candidate that is not already active and passes `canJobRun`.
`executeJob`'s first action, the `pending → running` update, is applied
synchronously. -/
def processQueue (store : Store) (activeJobs : List String) (maxConcurrent : Nat) :
    Store × List String :=
  if activeJobs.length ≥ maxConcurrent then (store, activeJobs)
  else
    let pendingJobs := getPendingJobs store (maxConcurrent - activeJobs.length)
    pendingJobs.foldl (fun acc job =>
      if acc.2.contains job.id then acc
      else if canJobRun acc.1 job then
        (updateJobStatus acc.1 job.id .running, acc.2 ++ [job.id])
      else acc) (store, activeJobs)

/-- The dispatch invariant the claim states: every dependency (by logical
job name, within the same run) of a `running` job has status `success`. -/
def depsSatisfied (store : Store) (job : JobRow) : Prop :=
  ∀ d ∈ job.dependsOnDef, ∀ row ∈ store.jobs,
    row.pipelineRunId = job.pipelineRunId → row.name = d → row.status = .success

/-! ## Warm VM pool (`packages/vm/src/pool/warm-pool.ts`)

VM ids are the pool's running `nextIndex` (the source appends a random
uuid fragment; uniqueness is what matters).  The hypervisor and network
side effects of creating and destroying VMs are external.  The
asynchronous replenish that an idle-hit `acquire` schedules runs in the
background and is not part of the synchronous transition modelled here. -/

/-- One pooled VM. -/
structure PooledVm where
  index : Nat
  createdAt : Nat
  lastUsedAt : Nat
  useCount : Nat
deriving DecidableEq, Repr

inductive PoolState where
  | starting | running | stopping | stopped
deriving DecidableEq, Repr

/-- Pool configuration. -/
structure PoolOptions where
  minIdle : Nat := 2
  maxIdle : Nat := 4
  maxTotal : Nat := 8
deriving DecidableEq, Repr

/-- The warm pool: the `idle` and `inUse` maps in insertion order. -/
structure WarmPool where
  options : PoolOptions
  idle : List PooledVm
  inUse : List PooledVm
  nextIndex : Nat
  state : PoolState
deriving DecidableEq, Repr

/-- `totalCount`. -/
def WarmPool.totalCount (p : WarmPool) : Nat :=
  p.idle.length + p.inUse.length

/-- `createVm`: allocate the next index; a fresh VM has `useCount = 0` and
both timestamps `now`. -/
def createVm (nextIndex : Nat) (now : Nat) : PooledVm :=
  { index := nextIndex, createdAt := now, lastUsedAt := now, useCount := 0 }

/-- `acquire()`: requires `running`.  Take the first idle VM if any
(bumping `lastUsedAt` and `useCount`); otherwise create one on demand if
below `maxTotal`; otherwise fail with pool exhaustion. -/
def WarmPool.acquire (p : WarmPool) (now : Nat) :
    Except String (PooledVm × WarmPool) :=
  if p.state != .running then .error "Warm pool is not running"
  else
    match p.idle with
    | vm :: restIdle =>
      let vm := { vm with lastUsedAt := now, useCount := vm.useCount + 1 }
      .ok (vm, { p with idle := restIdle, inUse := p.inUse ++ [vm] })
    | [] =>
      if p.totalCount ≥ p.options.maxTotal then
        .error "Pool exhausted: maximum VMs reached"
      else
        let vm := createVm p.nextIndex now
        let vm := { vm with lastUsedAt := now, useCount := vm.useCount + 1 }
        .ok (vm, { p with inUse := p.inUse ++ [vm], nextIndex := p.nextIndex + 1 })

/-- `release(vmId, options)`: unknown ids are ignored; the VM leaves
`inUse`; it is destroyed when `destroy` is requested or `idle` is already
at `maxIdle`, otherwise it returns to the end of `idle` with `lastUsedAt`
updated. -/
def WarmPool.release (p : WarmPool) (vmId : Nat) (destroy : Bool) (now : Nat) :
    WarmPool :=
  match p.inUse.find? (fun vm => vm.index == vmId) with
  | none => p
  | some vm =>
    let p := { p with inUse := p.inUse.filter (fun v => v.index != vmId) }
    if destroy || p.idle.length ≥ p.options.maxIdle then p
    else { p with idle := p.idle ++ [{ vm with lastUsedAt := now }] }

/-- The state after an `acquire`, keeping the previous state when the
acquire fails. -/
def acquireState (p : WarmPool) (now : Nat) : WarmPool :=
  match p.acquire now with
  | .ok pr => pr.2
  | .error _ => p

/-! ## Concrete fixtures used in the statements below -/

/-- The spec's matrix example: `test` over
`values = \x7bos: [ubuntu, alpine], node: [18, 20]\x7d` with
`exclude = [\x7bos: alpine, node: 18\x7d]`. -/
def exJob : JobDefinition :=
  { name := "test", runner := ⟨"ubuntu-22.04"⟩,
    matrix := some
      { values := [("os", [.s "ubuntu", .s "alpine"]), ("node", [.n 18, .n 20])]
        exclude := [[("os", .s "alpine"), ("node", .n 18)]] } }

/-- A job with a two-instance matrix, used to exercise enqueueing. -/
def matrixJobDef : JobDefinition :=
  { name := "test", runner := ⟨"ubuntu-22.04"⟩,
    matrix := some { values := [("v", [.s "1", .s "2"])] } }

/-- The `os × node` matrix with an inclusion whose `node=22` matches no
base combination: its missing `os` dimension is filled with the first
listed value and the synthesised instance is appended at the end. -/
def incJob : JobDefinition :=
  { name := "test", runner := ⟨"ubuntu-22.04"⟩,
    matrix := some
      { values := [("os", [.s "ubuntu", .s "alpine"]), ("node", [.n 18, .n 20])]
        includes := [[("node", .n 22)]] } }

/-- The `os × node` matrix with an inclusion that already equals an
existing combination on its specified key (`os=alpine`): nothing is
appended. -/
def matchedJob : JobDefinition :=
  { name := "test", runner := ⟨"ubuntu-22.04"⟩,
    matrix := some
      { values := [("os", [.s "ubuntu", .s "alpine"]), ("node", [.n 18, .n 20])]
        includes := [[("os", .s "alpine")]] } }

/-- A plain job without a matrix. -/
def plainJobDef : JobDefinition :=
  { name := "build", runner := ⟨"ubuntu-22.04"⟩ }

/-- A config whose only pipeline `ci` holds the matrix job. -/
def cfgMatrix : Config := ⟨[⟨"ci", [matrixJobDef]⟩]⟩

/-- A config that does not define a pipeline named `ci`. -/
def cfgOther : Config := ⟨[⟨"other", [plainJobDef]⟩]⟩

/-- A queued run asking for pipeline `ci`. -/
def runCi : QueuedRun := ⟨"r1", "p1", "ci"⟩

/-- The empty store. -/
def emptyStore : Store := ⟨[], []⟩

/-- The job row `queuePipelineRun` persists for a job definition: id is the
run id concatenated with the job name; no dependencies are passed. -/
def mkJobRow (runId : String) (j : JobDefinition) : JobRow :=
  { id := runId ++ "-" ++ j.name, pipelineRunId := runId, name := j.name,
    runnerImage := j.runner.image, dependsOnDef := j.dependsOn, status := .pending }

/-- A store holding one run `r1` whose rows are, in insertion order, a
`deploy` job depending on `build` and then the `build` job, both pending. -/
def storeDeployFirst : Store :=
  { runs := [⟨"r1", "p1", "ci", .pending⟩]
    jobs := [⟨"r1-deploy", "r1", "deploy", "ubuntu-22.04", ["build"], .pending⟩,
             ⟨"r1-build", "r1", "build", "ubuntu-22.04", [], .pending⟩] }

/-- The `deploy` row of `storeDeployFirst`. -/
def deployRow : JobRow :=
  ⟨"r1-deploy", "r1", "deploy", "ubuntu-22.04", ["build"], .pending⟩

/-- A running warm pool with `minIdle=2, maxIdle=3, maxTotal=4` and nothing
booted yet. -/
def pool0 : WarmPool :=
  { options := { minIdle := 2, maxIdle := 3, maxTotal := 4 }
    idle := [], inUse := [], nextIndex := 0, state := .running }

/-- The spec's step-output scenario: step `build` emits a version line. -/
def buildStep : StepDef :=
  { name := "Build", id := some "build",
    kind := .run "emit-version" none ⟨0, "::set-output name=version::1.2.3", 10⟩ }

/-- The subsequent step whose env references the `build` step's output via
the placeholder the `output` helper produces. -/
def useStep : StepDef :=
  { name := "Use", id := some "use",
    env := [("VER", output "build" "version")],
    kind := .run "use-version" none ⟨0, "", 10⟩ }

/-- The two-step job of the step-output scenario. -/
def c4Job : ExecJobDef := { name := "outputs", steps := [buildStep, useStep] }

/-- A `build` step whose `::set-output` marker line is surrounded by other
log output. -/
def buildStepSurrounded : StepDef :=
  { name := "Build", id := some "build",
    kind := .run "emit-version" none
      ⟨0, "Build complete\n::set-output name=version::1.2.3\nDone", 10⟩ }

/-- A step marks the job failed when it runs to `outcome = failure` without
`continueOnError` (its condition does not skip it). -/
def stepMarksJobFailed (step : StepDef) : Bool :=
  ((runStep step).outcome == .failure) && (step.condition != some false) &&
    (!step.continueOnError)

/-! ## Helper lemmas -/

lemma takeWhile_append_stop {p : Char → Bool} :
    ∀ (xs : List Char) (y : Char) (ys : List Char),
      (∀ x ∈ xs, p x = true) → p y = false →
      (xs ++ y :: ys).takeWhile p = xs := by
  intro xs y ys hall hy
  induction xs with
  | nil => simp [List.takeWhile, hy]
  | cons a as ih =>
    have ha : p a = true := hall a (by simp)
    simp only [List.cons_append, List.takeWhile, ha]
    simp [ih (fun x hx => hall x (by simp [hx]))]

lemma dropWhile_append_stop {p : Char → Bool} :
    ∀ (xs : List Char) (y : Char) (ys : List Char),
      (∀ x ∈ xs, p x = true) → p y = false →
      (xs ++ y :: ys).dropWhile p = y :: ys := by
  intro xs y ys hall hy
  induction xs with
  | nil => simp [List.dropWhile, hy]
  | cons a as ih =>
    have ha : p a = true := hall a (by simp)
    simp only [List.cons_append, List.dropWhile, ha]
    simp [ih (fun x hx => hall x (by simp [hx]))]

lemma takeWhile_of_all {p : Char → Bool} :
    ∀ (xs : List Char), (∀ x ∈ xs, p x = true) → xs.takeWhile p = xs := by
  intro xs hall
  induction xs with
  | nil => simp
  | cons a as ih =>
    have ha : p a = true := hall a (by simp)
    simp only [List.takeWhile, ha]
    simp [ih (fun x hx => hall x (by simp [hx]))]

lemma dropWhile_of_all {p : Char → Bool} :
    ∀ (xs : List Char), (∀ x ∈ xs, p x = true) → xs.dropWhile p = [] := by
  intro xs hall
  induction xs with
  | nil => simp
  | cons a as ih =>
    have ha : p a = true := hall a (by simp)
    simp only [List.dropWhile, ha]
    exact ih (fun x hx => hall x (by simp [hx]))

lemma find?_append_none {α : Type} {p : α → Bool} {l₁ l₂ : List α}
    (h : l₁.find? p = none) : (l₁ ++ l₂).find? p = l₂.find? p := by
  induction l₁ with
  | nil => simp
  | cons a as ih =>
    cases ha : p a with
    | true => rw [List.find?_cons_of_pos _ ha] at h; exact absurd h (by simp)
    | false =>
      rw [List.find?_cons_of_neg _ (by simp [ha])] at h
      rw [List.cons_append, List.find?_cons_of_neg _ (by simp [ha])]
      exact ih h

lemma any_false_find?_none {α : Type} {p : α → Bool} {l : List α}
    (h : l.any p = false) : l.find? p = none := by
  induction l with
  | nil => simp
  | cons a as ih =>
    rw [List.any_cons, Bool.or_eq_false_iff] at h
    rw [List.find?_cons_of_neg _ (by simp [h.1])]
    exact ih h.2

lemma find?_append_some {α : Type} {p : α → Bool} {l₁ l₂ : List α} {x : α}
    (h : l₁.find? p = some x) : (l₁ ++ l₂).find? p = some x := by
  induction l₁ with
  | nil => simp at h
  | cons a as ih =>
    cases ha : p a with
    | true =>
      rw [List.find?_cons_of_pos _ ha] at h
      rw [List.cons_append, List.find?_cons_of_pos _ ha]
      exact h
    | false =>
      rw [List.find?_cons_of_neg _ (by simp [ha])] at h
      rw [List.cons_append, List.find?_cons_of_neg _ (by simp [ha])]
      exact ih h

lemma find?_map_set_self {α : Type} (e : List (String × α)) (k : String) (v : α)
    (h : e.any (fun p => p.1 == k) = true) :
    (e.map (fun p => if p.1 == k then (k, v) else p)).find? (fun p => p.1 == k) =
      some (k, v) := by
  induction e with
  | nil => simp at h
  | cons a as ih =>
    cases ha : (a.1 == k) with
    | true =>
      simp only [List.map_cons, ha, if_true]
      rw [List.find?_cons_of_pos _ (by simp)]
    | false =>
      rw [List.any_cons, ha, Bool.false_or] at h
      simp only [List.map_cons, ha, Bool.false_eq_true, if_false]
      rw [List.find?_cons_of_neg _ (by simp [ha])]
      exact ih h

lemma lookup_setAssoc_self {α : Type} (e : List (String × α)) (k : String) (v : α) :
    (setAssoc e k v).find? (fun p => p.1 == k) = some (k, v) := by
  cases hany : e.any (fun p => p.1 == k) with
  | true =>
    simp only [setAssoc, hany, if_true]
    exact find?_map_set_self e k v hany
  | false =>
    simp only [setAssoc, hany, Bool.false_eq_true, if_false]
    rw [find?_append_none (any_false_find?_none hany)]
    rw [List.find?_cons_of_pos _ (by simp)]

lemma find?_map_set {α : Type} (e : List (String × α)) (k k' : String) (v : α)
    (hne : (k == k') = false) :
    (e.map (fun p => if p.1 == k then (k, v) else p)).find? (fun p => p.1 == k') =
      e.find? (fun p => p.1 == k') := by
  induction e with
  | nil => simp
  | cons a as ih =>
    cases ha : (a.1 == k) with
    | true =>
      have ha' : a.1 = k := by simpa using ha
      simp only [List.map_cons, ha, if_true]
      rw [List.find?_cons_of_neg _ (by simp [hne]),
        List.find?_cons_of_neg _ (by simp [ha', hne])]
      exact ih
    | false =>
      simp only [List.map_cons, ha, Bool.false_eq_true, if_false]
      cases hk' : (a.1 == k') with
      | true =>
        rw [List.find?_cons_of_pos _ (by simpa using hk'),
          List.find?_cons_of_pos _ (by simpa using hk')]
      | false =>
        rw [List.find?_cons_of_neg _ (by simp [hk']),
          List.find?_cons_of_neg _ (by simp [hk'])]
        exact ih

lemma lookup_setAssoc_ne {α : Type} (e : List (String × α)) (k k' : String) (v : α)
    (hne : (k == k') = false) :
    (setAssoc e k v).find? (fun p => p.1 == k') = e.find? (fun p => p.1 == k') := by
  cases hany : e.any (fun p => p.1 == k) with
  | true =>
    simp only [setAssoc, hany, if_true]
    exact find?_map_set e k k' v hne
  | false =>
    simp only [setAssoc, hany, Bool.false_eq_true, if_false]
    cases hf : e.find? (fun p => p.1 == k') with
    | some x => exact find?_append_some hf
    | none =>
      rw [find?_append_none hf]
      rw [List.find?_cons_of_neg _ (by simp [hne])]
      rfl

lemma lookupEnv_merge_notin (b : Env) :
    ∀ (a : Env) (k : String), (∀ p ∈ b, (p.1 == k) = false) →
      lookupEnv (mergeEnv a b) k = lookupEnv a k := by
  induction b with
  | nil => intro a k _; rfl
  | cons q rest ih =>
    intro a k hnot
    have hq : (q.1 == k) = false := hnot q (by simp)
    show lookupEnv (mergeEnv (setAssoc a q.1 q.2) rest) k = lookupEnv a k
    rw [ih (setAssoc a q.1 q.2) k (fun p hp => hnot p (by simp [hp]))]
    unfold lookupEnv
    rw [lookup_setAssoc_ne a q.1 k q.2 hq]

lemma lookupEnv_merge_right (b : Env) :
    ∀ (a : Env) (k : String) (v : String), (b.map Prod.fst).Nodup →
      lookupEnv b k = some v → lookupEnv (mergeEnv a b) k = some v := by
  induction b with
  | nil => intro a k v _ h; simp [lookupEnv] at h
  | cons q rest ih =>
    intro a k v hnodup hb
    rw [List.map_cons, List.nodup_cons] at hnodup
    show lookupEnv (mergeEnv (setAssoc a q.1 q.2) rest) k = some v
    cases hq : (q.1 == k) with
    | true =>
      have hq' : q.1 = k := by simpa using hq
      unfold lookupEnv at hb
      have hfind : List.find? (fun p => p.1 == k) (q :: rest) = some q :=
        List.find?_cons_of_pos rest hq
      rw [hfind] at hb
      have hb2 : q.2 = v := by simpa using hb
      have hrest : ∀ p ∈ rest, (p.1 == k) = false := by
        intro p hp
        have hmem : p.1 ∈ rest.map Prod.fst := List.mem_map_of_mem Prod.fst hp
        have hne : p.1 ≠ k := by
          intro hpk
          apply hnodup.1
          rw [hq', ← hpk]
          exact hmem
        simpa using hne
      rw [lookupEnv_merge_notin rest (setAssoc a q.1 q.2) k hrest]
      unfold lookupEnv
      have hself := lookup_setAssoc_self a q.1 q.2
      rw [hq'] at hself
      rw [hq', hself]
      simp [hb2]
    | false =>
      unfold lookupEnv at hb
      have hfind : List.find? (fun p => p.1 == k) (q :: rest) =
          List.find? (fun p => p.1 == k) rest :=
        List.find?_cons_of_neg rest (by simp [hq])
      rw [hfind] at hb
      exact ih (setAssoc a q.1 q.2) k v hnodup.2 hb

lemma runJobGo_failed :
    ∀ (steps : List StepDef) (flag : Bool) (rs : List (String × StepResult))
      (ts : List (String × Status)),
      (runJobGo steps flag rs ts).1 = (flag || steps.any stepMarksJobFailed) := by
  intro steps
  induction steps with
  | nil => intro flag rs ts; simp [runJobGo]
  | cons step rest ih =>
    intro flag rs ts
    cases hc : (step.condition == some false) with
    | true =>
      have hbne : (step.condition != some false) = false := by
        simp [bne, hc]
      have hm : stepMarksJobFailed step = false := by
        simp [stepMarksJobFailed, hbne]
      simp only [runJobGo, hc, if_true]
      rw [ih]
      simp [hm]
    | false =>
      have hbne : (step.condition != some false) = true := by
        simp [bne, hc]
      have hm : stepMarksJobFailed step =
          (((runStep step).outcome == .failure) && !step.continueOnError) := by
        simp [stepMarksJobFailed, hbne]
      cases hflag : flag with
      | false =>
        simp only [runJobGo, hc, Bool.false_eq_true, if_false, Bool.false_and]
        rw [ih]
        simp [hm, Bool.or_assoc]
      | true =>
        cases hcont : step.continueOnError with
        | false =>
          simp only [runJobGo, hc, Bool.false_eq_true, if_false, hcont,
            Bool.not_false, Bool.and_true, Bool.true_and, if_true]
          rw [ih]
          simp
        | true =>
          simp only [runJobGo, hc, Bool.false_eq_true, if_false, hcont,
            Bool.not_true, Bool.and_false]
          rw [ih]
          simp

lemma foldl_createJob :
    ∀ (jobs : List JobDefinition) (st : Store) (runId : String),
      jobs.foldl (fun st jobDef =>
        createJob st
          { id := runId ++ "-" ++ jobDef.name
            pipelineRunId := runId
            name := jobDef.name
            runnerImage := jobDef.runner.image
            dependsOnDef := jobDef.dependsOn
            status := .pending }) st
      = { st with jobs := st.jobs ++ jobs.map (mkJobRow runId) } := by
  intro jobs
  induction jobs with
  | nil => intro st runId; simp
  | cons j rest ih =>
    intro st runId
    rw [List.foldl_cons, ih]
    simp [createJob, mkJobRow]

lemma filter_no_exclusions (l : List Rec) :
    l.filter (fun c => !shouldExclude c []) = l := by
  induction l with
  | nil => rfl
  | cons a as ih => simp [List.filter, shouldExclude, ih]

lemma combos_map_values (l : List Rec) :
    ((l.enum).map (fun p =>
        (⟨p.1, p.2, generateNameSuffix p.2⟩ : MatrixCombination))).map
      (fun c => c.values) = l := by
  rw [List.map_map]
  exact List.enum_map_snd l

lemma length_flatMap {α β : Type} (l : List α) (f : α → List β) :
    (l.flatMap f).length = (l.map (fun x => (f x).length)).sum := by
  induction l with
  | nil => rfl
  | cons a as ih => simp [List.flatMap_cons, ih]

lemma sum_map_const {α : Type} (l : List α) (n : Nat) :
    (l.map (fun _ => n)).sum = l.length * n := by
  induction l with
  | nil => simp
  | cons a as ih => simp [ih, Nat.succ_mul, Nat.add_comm]

lemma cartesianProduct_cons (k : String) (vs : List Scalar)
    (r : String × List Scalar) (rs : List (String × List Scalar)) :
    cartesianProduct ((k, vs) :: r :: rs) =
      vs.flatMap (fun v =>
        (cartesianProduct (r :: rs)).map (fun restCombo => (k, v) :: restCombo)) :=
  rfl

lemma cartesianProduct_length :
    ∀ (values : List (String × List Scalar)),
      (cartesianProduct values).length = (values.map (fun kv => kv.2.length)).prod := by
  intro values
  induction values with
  | nil => rfl
  | cons kv rest ih =>
    cases rest with
    | nil => simp [cartesianProduct]
    | cons r rs =>
      rw [show kv = (kv.1, kv.2) from rfl, cartesianProduct_cons]
      rw [length_flatMap]
      simp only [List.length_map]
      rw [sum_map_const, List.map_cons, List.prod_cons]
      rw [ih]

lemma applyIncludes_append :
    ∀ (incs : List Rec) (values : List (String × List Scalar)) (combos : List Rec),
      ∃ extra : List Rec, applyIncludes values combos incs = combos ++ extra ∧
        ∀ r ∈ extra, ∃ inc ∈ incs, r = fillCombo values inc := by
  intro incs
  induction incs with
  | nil => intro values combos; exact ⟨[], by simp [applyIncludes], by simp⟩
  | cons inc rest ih =>
    intro values combos
    cases hmatch : combos.any (fun combo => matchesAll inc combo) with
    | true =>
      obtain ⟨extra, heq, hmem⟩ := ih values combos
      have hstep : applyIncludes values combos (inc :: rest) =
          applyIncludes values combos rest := by
        simp only [applyIncludes, List.foldl_cons]
        rw [hmatch, if_pos rfl]
      refine ⟨extra, ?_, ?_⟩
      · rw [hstep, heq]
      · intro r hr
        obtain ⟨i, hi, hri⟩ := hmem r hr
        exact ⟨i, by simp [hi], hri⟩
    | false =>
      obtain ⟨extra, heq, hmem⟩ := ih values (combos ++ [fillCombo values inc])
      have hstep : applyIncludes values combos (inc :: rest) =
          applyIncludes values (combos ++ [fillCombo values inc]) rest := by
        simp only [applyIncludes, List.foldl_cons]
        rw [hmatch, if_neg (by simp)]
      refine ⟨fillCombo values inc :: extra, ?_, ?_⟩
      · rw [hstep, heq, List.append_assoc]
        rfl
      · intro r hr
        rcases List.mem_cons.mp hr with hr | hr
        · exact ⟨inc, by simp, hr⟩
        · obtain ⟨i, hi, hri⟩ := hmem r hr
          exact ⟨i, by simp [hi], hri⟩

lemma matchSetOutput_exact (nm v : String)
    (hnm : nm.data ≠ []) (hnmc : ∀ c ∈ nm.data, (c != ':') = true)
    (hv : v.data ≠ []) (hvn : ∀ c ∈ v.data, (c != '\n') = true) :
    matchSetOutput ("::set-output name=".data ++ (nm.data ++ ':' :: ':' :: v.data)) =
      some (nm, v, []) := by
  simp only [matchSetOutput]
  rw [List.take_left, if_pos rfl, List.drop_left]
  rw [takeWhile_append_stop nm.data ':' (':' :: v.data) hnmc (by decide)]
  rw [if_neg (by simp [List.isEmpty_iff, hnm])]
  rw [dropWhile_append_stop nm.data ':' (':' :: v.data) hnmc (by decide)]
  simp only
  rw [takeWhile_of_all v.data hvn]
  rw [if_neg (by simp [List.isEmpty_iff, hv])]
  rw [dropWhile_of_all v.data hvn]

lemma parseGo_nil (f : Nat) : parseGo f [] = [] := by
  cases f <;> rfl

lemma parseGo_single (f : Nat) (c : Char) (cs : List Char) (nm v : String)
    (h : matchSetOutput (c :: cs) = some (nm, v, [])) :
    parseGo (f + 1) (c :: cs) = [(nm, v)] := by
  simp only [parseGo, h]

lemma tryMatrixMatch_exact (m : Rec) (k : String)
    (hk : k.data ≠ []) (hw : ∀ c ∈ k.data, isWordChar c = true) :
    tryMatrixMatch m ((matrix k).data) = some ((matrixReplacement m k).data, []) := by
  have hdata : (matrix k).data =
      '$' :: '\x7b' :: '\x7b' ::
        (' ' :: 'm' :: 'a' :: 't' :: 'r' :: 'i' :: 'x' :: '.' ::
          (k.data ++ ' ' :: '\x7d' :: '\x7d' :: [])) := by
    show ("$\x7b\x7b matrix." ++ k ++ " \x7d\x7d").data = _
    rw [String.data_append, String.data_append]
    rfl
  rw [hdata]
  unfold tryMatrixMatch
  simp only [List.dropWhile]
  rw [show isSpaceChar ' ' = true from rfl]
  simp only [List.dropWhile]
  rw [show isSpaceChar 'm' = false from rfl]
  simp only
  rw [takeWhile_append_stop k.data ' ' ('\x7d' :: '\x7d' :: []) hw (by decide)]
  rw [if_neg (by simp [List.isEmpty_iff, hk])]
  rw [dropWhile_append_stop k.data ' ' ('\x7d' :: '\x7d' :: []) hw (by decide)]
  simp only [List.dropWhile]
  rw [show isSpaceChar ' ' = true from rfl]
  simp only [List.dropWhile]
  rw [show isSpaceChar '\x7d' = false from rfl]
  simp only

lemma interpGo_nil (m : Rec) (f : Nat) : interpGo m f [] = [] := by
  cases f <;> rfl

lemma interpGo_full (m : Rec) (f : Nat) (c : Char) (cs : List Char)
    (repl : List Char) (h : tryMatrixMatch m (c :: cs) = some (repl, [])) :
    interpGo m (f + 1) (c :: cs) = repl := by
  simp only [interpGo, h]
  exact List.append_nil repl

lemma data_ne_nil (s : String) (h : s ≠ "") : s.data ≠ [] := by
  intro hd
  exact h (String.ext (by rw [hd]))

lemma parseOutputs_single (nm v : String)
    (hnm : nm.data ≠ []) (hnmc : ∀ c ∈ nm.data, (c != ':') = true)
    (hv : v.data ≠ []) (hvn : ∀ c ∈ v.data, (c != '\n') = true) :
    parseOutputs ("::set-output name=" ++ nm ++ "::" ++ v) = [(nm, v)] := by
  have hdata : ("::set-output name=" ++ nm ++ "::" ++ v).data =
      "::set-output name=".data ++ (nm.data ++ ':' :: ':' :: v.data) := by
    rw [String.data_append, String.data_append, String.data_append]
    rw [show ("::".data : List Char) = [':', ':'] from rfl]
    simp [List.append_assoc]
  have hm := matchSetOutput_exact nm v hnm hnmc hv hvn
  have hcons : "::set-output name=".data ++ (nm.data ++ ':' :: ':' :: v.data) =
      ':' :: (":set-output name=".data ++ (nm.data ++ ':' :: ':' :: v.data)) := rfl
  unfold parseOutputs
  rw [hdata, hcons, List.length_cons]
  apply parseGo_single
  rw [← hcons]
  exact hm

lemma find?_fillCombo_map (inc : Rec) :
    ∀ (values : List (String × List Scalar)) (d : String) (vs : List Scalar),
      (d, vs) ∈ values → (values.map Prod.fst).Nodup →
      (values.map (fun p =>
        (p.1, (lookupRec inc p.1).getD (p.2.headD (Scalar.s ""))))).find?
          (fun p => p.1 == d) =
        some (d, (lookupRec inc d).getD (vs.headD (Scalar.s ""))) := by
  intro values
  induction values with
  | nil => intro d vs hmem _; simp at hmem
  | cons p0 rest ih =>
    intro d vs hmem hnodup
    rw [List.map_cons, List.nodup_cons] at hnodup
    cases hd : (p0.1 == d) with
    | true =>
      have hd' : p0.1 = d := by simpa using hd
      have hp0 : p0 = (d, vs) := by
        rcases List.mem_cons.mp hmem with h | h
        · exact h.symm
        · exfalso
          apply hnodup.1
          rw [hd']
          exact List.mem_map_of_mem Prod.fst h
      simp only [List.map_cons]
      have hfind :
          ((p0.1, (lookupRec inc p0.1).getD (p0.2.headD (Scalar.s ""))) ::
            rest.map (fun p =>
              (p.1, (lookupRec inc p.1).getD (p.2.headD (Scalar.s ""))))).find?
            (fun p => p.1 == d) =
          some (p0.1, (lookupRec inc p0.1).getD (p0.2.headD (Scalar.s ""))) :=
        List.find?_cons_of_pos _ (by simpa using hd)
      rw [hfind, hp0]
    | false =>
      have hmem' : (d, vs) ∈ rest := by
        rcases List.mem_cons.mp hmem with h | h
        · exfalso; rw [← h] at hd; simp at hd
        · exact h
      simp only [List.map_cons]
      rw [List.find?_cons_of_neg _ (by simp [hd])]
      exact ih d vs hmem' hnodup.2

lemma lookupRec_fillCombo (values : List (String × List Scalar)) (inc : Rec)
    (d : String) (vs : List Scalar)
    (hmem : (d, vs) ∈ values) (hnodup : (values.map Prod.fst).Nodup) :
    lookupRec (fillCombo values inc) d =
      some ((lookupRec inc d).getD (vs.headD (Scalar.s ""))) := by
  have hfind := find?_fillCombo_map inc values d vs hmem hnodup
  have hout : lookupRec (fillCombo values inc) d =
      ((fillCombo values inc).find? (fun p => p.1 == d)).map (fun p => p.2) := rfl
  rw [hout]
  unfold fillCombo
  rw [find?_append_some hfind]
  rfl

lemma matchSetOutput_none (c : Char) (cs : List Char) (hc : c ≠ ':') :
    matchSetOutput (c :: cs) = none := by
  have hcond : ¬ ((c :: cs).take ("::set-output name=".data).length =
      "::set-output name=".data) := by
    intro h
    rw [show ("::set-output name=".data : List Char) =
      ':' :: ":set-output name=".data from rfl] at h
    rw [List.length_cons, List.take_succ_cons] at h
    injection h with h1 _
    exact hc h1
  simp only [matchSetOutput]
  rw [if_neg hcond]

lemma parseGo_skipLeading (xs : List Char) (hxs : ∀ c ∈ xs, c ≠ ':') :
    ∀ (f : Nat) (rest : List Char),
      parseGo (xs.length + f) (xs ++ rest) = parseGo f rest := by
  induction xs with
  | nil => intro f rest; simp
  | cons x xt ih =>
    intro f rest
    have hx : x ≠ ':' := hxs x (by simp)
    rw [show (x :: xt).length + f = (xt.length + f) + 1 from by
      simp [Nat.add_right_comm]]
    rw [List.cons_append]
    simp only [parseGo, matchSetOutput_none x (xt ++ rest) hx]
    exact ih (fun c hc => hxs c (by simp [hc])) f rest

lemma parseGo_skipAll (xs : List Char) (hxs : ∀ c ∈ xs, c ≠ ':') :
    ∀ f : Nat, parseGo f xs = [] := by
  induction xs with
  | nil => intro f; exact parseGo_nil f
  | cons x xt ih =>
    intro f
    cases f with
    | zero => rfl
    | succ f' =>
      simp only [parseGo, matchSetOutput_none x xt (hxs x (by simp))]
      exact ih (fun c hc => hxs c (by simp [hc])) f'

lemma matchSetOutput_line (nm v : String) (tail : List Char)
    (hnm : nm.data ≠ []) (hnmc : ∀ c ∈ nm.data, (c != ':') = true)
    (hv : v.data ≠ []) (hvn : ∀ c ∈ v.data, (c != '\n') = true)
    (htail : tail = [] ∨ tail.head? = some '\n') :
    matchSetOutput
      ("::set-output name=".data ++ (nm.data ++ ':' :: ':' :: (v.data ++ tail))) =
      some (nm, v, tail) := by
  simp only [matchSetOutput]
  rw [List.take_left, if_pos rfl, List.drop_left]
  rw [takeWhile_append_stop nm.data ':' (':' :: (v.data ++ tail)) hnmc (by decide)]
  rw [if_neg (by simp [List.isEmpty_iff, hnm])]
  rw [dropWhile_append_stop nm.data ':' (':' :: (v.data ++ tail)) hnmc (by decide)]
  simp only
  rcases htail with ht | ht
  · subst ht
    rw [List.append_nil]
    rw [takeWhile_of_all v.data hvn]
    rw [if_neg (by simp [List.isEmpty_iff, hv])]
    rw [dropWhile_of_all v.data hvn]
  · obtain ⟨t', rfl⟩ : ∃ t', tail = '\n' :: t' := by
      cases tail with
      | nil => simp at ht
      | cons a t =>
        simp only [List.head?_cons, Option.some.injEq] at ht
        exact ⟨t, by rw [ht]⟩
    rw [takeWhile_append_stop v.data '\n' t' hvn (by decide)]
    rw [if_neg (by simp [List.isEmpty_iff, hv])]
    rw [dropWhile_append_stop v.data '\n' t' hvn (by decide)]

lemma parseOutputs_contains (pre nm v post : String)
    (hpre : ∀ c ∈ pre.data, c ≠ ':')
    (hnm : nm ≠ "") (hnmc : ∀ c ∈ nm.data, c ≠ ':')
    (hv : v ≠ "") (hvn : ∀ c ∈ v.data, c ≠ '\n')
    (hpostnl : post = "" ∨ post.data.head? = some '\n')
    (hpostc : ∀ c ∈ post.data, c ≠ ':') :
    parseOutputs (pre ++ "::set-output name=" ++ nm ++ "::" ++ v ++ post) =
      [(nm, v)] := by
  have hdata : (pre ++ "::set-output name=" ++ nm ++ "::" ++ v ++ post).data =
      pre.data ++
        ("::set-output name=".data ++ (nm.data ++ ':' :: ':' :: (v.data ++ post.data))) := by
    rw [String.data_append, String.data_append, String.data_append,
      String.data_append]
    rw [show ("::".data : List Char) = [':', ':'] from rfl]
    simp [List.append_assoc]
  have htail : post.data = [] ∨ post.data.head? = some '\n' := by
    rcases hpostnl with h | h
    · left; rw [h]
    · right; exact h
  have hmatch := matchSetOutput_line nm v post.data (data_ne_nil nm hnm)
    (fun c hc => by simpa using hnmc c hc) (data_ne_nil v hv)
    (fun c hc => by simpa using hvn c hc) htail
  have hcons :
      "::set-output name=".data ++ (nm.data ++ ':' :: ':' :: (v.data ++ post.data)) =
      ':' :: (":set-output name=".data ++
        (nm.data ++ ':' :: ':' :: (v.data ++ post.data))) := rfl
  unfold parseOutputs
  rw [hdata, List.length_append]
  rw [parseGo_skipLeading pre.data hpre _ _]
  rw [hcons, List.length_cons]
  rw [hcons] at hmatch
  simp only [parseGo, hmatch]
  rw [parseGo_skipAll post.data hpostc _]

/-! ## The claims -/

/-- Claim C1 (code bug in the source, see spec §9): the scheduler should
dispatch a job only when every job in its `dependsOn` list has status
`success`.  The source's `canJobRun` placeholder instead admits the first
pending row of the run: in `storeDeployFirst` the `deploy` row (which
depends on `build`) comes first, `canJobRun` accepts it, and one
`processQueue` tick sets it `running` while `build` is not `success`. -/
theorem c1_dispatch_ignores_dependsOn :
    canJobRun storeDeployFirst deployRow = true ∧
    "build" ∈ deployRow.dependsOnDef ∧
    (∃ row ∈ storeDeployFirst.jobs, row.pipelineRunId = deployRow.pipelineRunId ∧
      row.name = "build" ∧ row.status = .pending) ∧
    (((processQueue storeDeployFirst [] 4).1.jobs.find?
        (fun j => j.id == "r1-deploy")).map (fun j => j.status) = some .running) ∧
    ¬ depsSatisfied (processQueue storeDeployFirst [] 4).1 deployRow := by
  refine ⟨by decide, by decide, by decide, by decide, ?_⟩
  intro h
  have := h "build" (by decide)
  exact absurd (this ⟨"r1-build", "r1", "build", "ubuntu-22.04", [], .running⟩
    (by decide) (by decide) (by decide)) (by decide)

/-- Claim C2, counterexample: for the matrix job `test` with two instances,
`queuePipelineRun` persists a single job row, not one row per expanded
job — `expandPipelineJobs` yields two instances. -/
theorem c2_counterexample :
    (queuePipelineRun emptyStore (.ok cfgMatrix) runCi).2.jobs.length = 1 ∧
    (expandPipelineJobs [matrixJobDef]).length = 2 ∧
    (queuePipelineRun emptyStore (.ok cfgMatrix) runCi).2.jobs.length ≠
      (expandPipelineJobs [matrixJobDef]).length := by
  refine ⟨by decide, by decide, by decide⟩

/-- Claim C2 as amended: a successful `queuePipelineRun` persists the run
with status `pending`, persists one job row per job definition of the
resolved pipeline — without matrix expansion and without dependencies —
with row id the concatenation of run id and job name, and returns the run
id. -/
theorem c2_amended_unexpanded_rows :
    ∀ (store : Store) (config : Config) (run : QueuedRun) (p : PipelineDefinition),
      (resolvePipelines config).find? (fun q => q.name == run.pipelineName) = some p →
      queuePipelineRun store (.ok config) run =
        (.ok run.id,
          { runs := store.runs ++ [⟨run.id, run.projectId, run.pipelineName, .pending⟩]
            jobs := store.jobs ++ p.jobs.map (mkJobRow run.id) }) := by
  intro store config run p hfind
  simp only [queuePipelineRun, hfind]
  rw [foldl_createJob]
  rfl

/-- Claim C2 witness: the amended statement evaluated on the matrix
pipeline. -/
theorem c2_amended_witness :
    queuePipelineRun emptyStore (.ok cfgMatrix) runCi =
      (.ok "r1",
        { runs := [⟨"r1", "p1", "ci", .pending⟩]
          jobs := [mkJobRow "r1" matrixJobDef] }) := by
  have h := c2_amended_unexpanded_rows emptyStore cfgMatrix runCi
    ⟨"ci", [matrixJobDef]⟩ (by decide)
  simpa [emptyStore, runCi, cfgMatrix] using h

/-- Claim C6: a step whose declared timeout expires while its process is
still running reports exit code 124, has the literal timeout marker
appended to the accumulated output, and ends with `outcome = failure`. -/
theorem c6_step_timeout :
    ∀ (b : ProcBehavior) (t : Nat) (command : String) (sh : Option String)
      (step : StepDef),
      step.kind = .run command sh b → step.timeout = some t →
      b.durationMs > t * 1000 →
      runCommand b (some t) =
        (124, b.procOutput ++ "\n[TIMEOUT] Step exceeded timeout limit") ∧
      (runStep step).outcome = .failure := by
  intro b t command sh step hkind htmo hdur
  constructor
  · simp [runCommand, hdur]
  · simp [runStep, hkind, htmo, runCommand, hdur]

/-- Claim C6 witness: `timeout=1` with a process that would run 5000 ms. -/
theorem c6_step_timeout_witness :
    runCommand ⟨0, "out", 5000⟩ (some 1) =
      (124, "out" ++ "\n[TIMEOUT] Step exceeded timeout limit") ∧
    (runStep { name := "sleep", timeout := some 1,
               kind := .run "sleep 5" none ⟨0, "out", 5000⟩ }).outcome = .failure :=
  c6_step_timeout ⟨0, "out", 5000⟩ 1 "sleep 5" none
    { name := "sleep", timeout := some 1, kind := .run "sleep 5" none ⟨0, "out", 5000⟩ }
    rfl rfl (by decide)

/-- Claim C8, counterexample: enqueueing a run whose pipeline is absent
from the resolved config returns the error to the caller, but the
pipeline-run row has already been persisted — the store is not free of
rows for that run. -/
theorem c8_counterexample :
    (queuePipelineRun emptyStore (.ok cfgOther) runCi).1 =
      .error "Pipeline 'ci' not found" ∧
    (queuePipelineRun emptyStore (.ok cfgOther) runCi).2.runs =
      [⟨"r1", "p1", "ci", .pending⟩] := by
  refine ⟨by rfl, by decide⟩

/-- Claim C8 as amended: when an enqueue fails (invalid config or pipeline
not found), the error is returned to the caller and no job rows are
persisted; the pipeline-run row, created before the config is resolved,
remains in the store with status `pending`. -/
theorem c8_amended_no_job_rows_on_error :
    ∀ (store : Store) (loadedConfig : Except String Config) (run : QueuedRun)
      (e : String) (st : Store),
      queuePipelineRun store loadedConfig run = (.error e, st) →
      st.jobs = store.jobs ∧
      st.runs = store.runs ++ [⟨run.id, run.projectId, run.pipelineName, .pending⟩] := by
  intro store loadedConfig run e st h
  cases loadedConfig with
  | error e' =>
    simp only [queuePipelineRun] at h
    have hst : st = createPipelineRun store run.id run.projectId run.pipelineName := by
      have := congrArg Prod.snd h
      simpa using this.symm
    subst hst
    exact ⟨rfl, rfl⟩
  | ok config =>
    simp only [queuePipelineRun] at h
    cases hfind : (resolvePipelines config).find?
        (fun p => p.name == run.pipelineName) with
    | none =>
      rw [hfind] at h
      have hst : st = createPipelineRun store run.id run.projectId run.pipelineName := by
        have := congrArg Prod.snd h
        simpa using this.symm
      subst hst
      exact ⟨rfl, rfl⟩
    | some p =>
      rw [hfind] at h
      have := congrArg Prod.fst h
      simp at this

/-- Claim C8 witness: the amended statement evaluated on the config that
lacks pipeline `ci`. -/
theorem c8_amended_witness :
    (queuePipelineRun emptyStore (.ok cfgOther) runCi).2.jobs = [] ∧
    (queuePipelineRun emptyStore (.ok cfgOther) runCi).2.runs =
      [⟨"r1", "p1", "ci", .pending⟩] := by
  have h := c8_amended_no_job_rows_on_error emptyStore (.ok cfgOther) runCi
    "Pipeline 'ci' not found"
    (queuePipelineRun emptyStore (.ok cfgOther) runCi).2 (by rfl)
  simpa [emptyStore, runCi] using h

/-- Claim C10: a job whose `matrix` field is present but whose
`matrix.values` map has no dimensions expands to the empty list — the job
disappears — whereas a job without a matrix expands to exactly one
instance. -/
theorem c10_empty_matrix_values :
    (∀ (job : JobDefinition) (m : MatrixConfig),
      job.matrix = some m → m.values = [] → expandMatrix job = []) ∧
    (∀ (pre post : List JobDefinition) (job : JobDefinition) (m : MatrixConfig),
      job.matrix = some m → m.values = [] →
      expandPipelineJobs (pre ++ job :: post) =
        expandPipelineJobs pre ++ expandPipelineJobs post) ∧
    (∀ job : JobDefinition, job.matrix = none → (expandMatrix job).length = 1) := by
  have hempty : ∀ (job : JobDefinition) (m : MatrixConfig),
      job.matrix = some m → m.values = [] → expandMatrix job = [] := by
    intro job m hm hv
    simp [expandMatrix, hm, generateCombinations, hv]
  refine ⟨hempty, ?_, ?_⟩
  · intro pre post job m hm hv
    simp [expandPipelineJobs, hempty job m hm hv]
  · intro job hm
    simp [expandMatrix, hm]

/-- Claim C10 witness: a job with an empty-valued matrix vanishes; the
plain job yields one instance. -/
theorem c10_empty_matrix_values_witness :
    expandMatrix { name := "test", runner := ⟨"ubuntu-22.04"⟩,
                   matrix := some { values := [] } } = [] ∧
    expandPipelineJobs [plainJobDef,
      { name := "test", runner := ⟨"ubuntu-22.04"⟩, matrix := some { values := [] } }] =
      expandPipelineJobs [plainJobDef] ++ expandPipelineJobs [] ∧
    (expandMatrix plainJobDef).length = 1 :=
  ⟨c10_empty_matrix_values.1
      { name := "test", runner := ⟨"ubuntu-22.04"⟩, matrix := some { values := [] } }
      { values := [] } rfl rfl,
    c10_empty_matrix_values.2.1 [plainJobDef] []
      { name := "test", runner := ⟨"ubuntu-22.04"⟩, matrix := some { values := [] } }
      { values := [] } rfl rfl,
    c10_empty_matrix_values.2.2 plainJobDef rfl⟩

/-- Claim C5: for a `run` step, `outcome = success` iff the reported exit
code is 0; `status` equals `outcome` except that a failing step with
`continueOnError` gets `status = success`; and the job's final status is
`failure` iff some step runs to `outcome = failure` without
`continueOnError` (its condition not skipping it), else `success`. -/
theorem c5_result_mapping :
    (∀ (step : StepDef) (command : String) (sh : Option String) (b : ProcBehavior),
      step.kind = .run command sh b →
      (((runStep step).outcome = .success) ↔ (runCommand b step.timeout).1 = 0) ∧
      ((runStep step).status =
        if (runStep step).outcome = .failure ∧ step.continueOnError = true
        then .success else (runStep step).outcome)) ∧
    (∀ job : ExecJobDef,
      ((runJob job).status = .failure ↔
        ∃ step ∈ job.steps, (runStep step).outcome = .failure ∧
          step.condition ≠ some false ∧ step.continueOnError = false)) := by
  constructor
  · intro step command sh b hkind
    cases hz : ((runCommand b step.timeout).1 == 0) with
    | true =>
      have hz' : (runCommand b step.timeout).1 = 0 := by simpa using hz
      constructor
      · simp [runStep, hkind, hz, hz']
      · simp [runStep, hkind, hz]
    | false =>
      have hz' : ¬ (runCommand b step.timeout).1 = 0 := by simpa using hz
      constructor
      · simp [runStep, hkind, hz, hz']
      · cases hcont : step.continueOnError with
        | true => simp [runStep, hkind, hz, hcont]
        | false => simp [runStep, hkind, hz, hcont]
  · intro job
    have hflag := runJobGo_failed job.steps false [] []
    rw [Bool.false_or] at hflag
    have hstat : (runJob job).status =
        (if job.steps.any stepMarksJobFailed then Status.failure else .success) := by
      simp only [runJob, hflag]
    rw [hstat]
    cases hany : job.steps.any stepMarksJobFailed with
    | true =>
      rw [if_pos rfl]
      constructor
      · intro _
        obtain ⟨st, hst, hmark⟩ := List.any_eq_true.mp hany
        refine ⟨st, hst, ?_⟩
        simpa [stepMarksJobFailed, Bool.and_eq_true, bne, and_assoc] using hmark
      · intro _
        rfl
    | false =>
      rw [if_neg (by simp)]
      constructor
      · intro hcon
        exact absurd hcon (by decide)
      · rintro ⟨st, hst, hout, hcond, hcont⟩
        have hfalse := List.any_eq_false.mp hany st hst
        rw [stepMarksJobFailed] at hfalse
        simp [hout, hcont, bne] at hfalse
        exact absurd hfalse hcond

/-- Claim C5 witness: the mapping evaluated on a failing run step with a
timeout-free behaviour and on the two-step job of the output scenario. -/
theorem c5_result_mapping_witness :
    (((runStep { name := "f", kind := .run "false" none ⟨1, "", 10⟩ }).outcome
        = .success) ↔ (runCommand ⟨1, "", 10⟩ none).1 = 0) ∧
    ((runJob c4Job).status = .failure ↔
      ∃ step ∈ c4Job.steps, (runStep step).outcome = .failure ∧
        step.condition ≠ some false ∧ step.continueOnError = false) :=
  ⟨(c5_result_mapping.1 { name := "f", kind := .run "false" none ⟨1, "", 10⟩ }
      "false" none ⟨1, "", 10⟩ rfl).1,
    c5_result_mapping.2 c4Job⟩

/-- Claim C7: warm-pool acquire takes an idle VM when one exists, creates
a new VM when idle is empty below `maxTotal`, and fails with pool
exhaustion at `maxTotal`; release without destroy returns the VM to idle
with `lastUsedAt` updated when idle is below `maxIdle`, and destroys it
when destroy is requested or idle is full — so that with
`minIdle=2, maxIdle=3, maxTotal=4`, acquiring 4 and releasing all 4 ends
with 3 idle VMs and none in use. -/
theorem c7_warm_pool_cycling :
    (∀ (p : WarmPool) (now : Nat) (vm : PooledVm) (rest : List PooledVm),
      p.state = .running → p.idle = vm :: rest →
      p.acquire now = .ok
        ({ vm with lastUsedAt := now, useCount := vm.useCount + 1 },
          { p with idle := rest,
                   inUse := p.inUse ++
                     [{ vm with lastUsedAt := now, useCount := vm.useCount + 1 }] })) ∧
    (∀ (p : WarmPool) (now : Nat),
      p.state = .running → p.idle = [] → p.totalCount < p.options.maxTotal →
      p.acquire now = .ok
        ({ createVm p.nextIndex now with useCount := 1 },
          { p with inUse := p.inUse ++ [{ createVm p.nextIndex now with useCount := 1 }],
                   nextIndex := p.nextIndex + 1 })) ∧
    (∀ (p : WarmPool) (now : Nat),
      p.state = .running → p.idle = [] → p.totalCount ≥ p.options.maxTotal →
      p.acquire now = .error "Pool exhausted: maximum VMs reached") ∧
    (∀ (p : WarmPool) (vmId now : Nat) (vm : PooledVm),
      p.inUse.find? (fun v => v.index == vmId) = some vm →
      p.idle.length < p.options.maxIdle →
      p.release vmId false now =
        { p with inUse := p.inUse.filter (fun v => v.index != vmId),
                 idle := p.idle ++ [{ vm with lastUsedAt := now }] }) ∧
    (∀ (p : WarmPool) (vmId now : Nat) (vm : PooledVm) (destroy : Bool),
      p.inUse.find? (fun v => v.index == vmId) = some vm →
      (destroy = true ∨ p.idle.length ≥ p.options.maxIdle) →
      p.release vmId destroy now =
        { p with inUse := p.inUse.filter (fun v => v.index != vmId) }) ∧
    ((acquireState (acquireState (acquireState (acquireState pool0 1) 2) 3) 4).idle.length = 0 ∧
     (acquireState (acquireState (acquireState (acquireState pool0 1) 2) 3) 4).inUse.length = 4 ∧
     (acquireState (acquireState (acquireState (acquireState pool0 1) 2) 3) 4).acquire 5 =
       .error "Pool exhausted: maximum VMs reached" ∧
     (((((acquireState (acquireState (acquireState (acquireState pool0 1) 2) 3) 4).release
          0 false 10).release 1 false 11).release 2 false 12).release 3 false 13).idle.length = 3 ∧
     (((((acquireState (acquireState (acquireState (acquireState pool0 1) 2) 3) 4).release
          0 false 10).release 1 false 11).release 2 false 12).release 3 false 13).inUse.length = 0) := by
  refine ⟨?_, ?_, ?_, ?_, ?_, ?_⟩
  · intro p now vm rest hstate hidle
    simp [WarmPool.acquire, hstate, hidle]
  · intro p now hstate hidle hlt
    have hge : ¬ p.totalCount ≥ p.options.maxTotal := by omega
    simp [WarmPool.acquire, hstate, hidle, hge, createVm]
  · intro p now hstate hidle hge
    simp [WarmPool.acquire, hstate, hidle, hge]
  · intro p vmId now vm hfind hlt
    have hge : ¬ p.idle.length ≥ p.options.maxIdle := by omega
    simp [WarmPool.release, hfind, hge]
  · intro p vmId now vm destroy hfind hor
    rcases hor with hd | hge
    · subst hd
      simp [WarmPool.release, hfind]
    · simp [WarmPool.release, hfind, hge]
  · refine ⟨by rfl, by rfl, by rfl, by rfl, by rfl⟩

/-- Claim C7 witness: the three acquire modes and both release modes on
concrete pools. -/
theorem c7_warm_pool_cycling_witness :
    pool0.acquire 1 = .ok
      ({ createVm 0 1 with useCount := 1 },
        { pool0 with inUse := [{ createVm 0 1 with useCount := 1 }], nextIndex := 1 }) ∧
    { pool0 with idle := [createVm 7 0] }.acquire 2 = .ok
      ({ createVm 7 0 with lastUsedAt := 2, useCount := 1 },
        { pool0 with idle := [],
                     inUse := [{ createVm 7 0 with lastUsedAt := 2, useCount := 1 }] }) ∧
    { pool0 with inUse := [createVm 0 0, createVm 1 0, createVm 2 0, createVm 3 0],
                 nextIndex := 4 }.acquire 9 =
      .error "Pool exhausted: maximum VMs reached" ∧
    { pool0 with inUse := [createVm 5 0] }.release 5 false 9 =
      { pool0 with inUse := [], idle := [{ createVm 5 0 with lastUsedAt := 9 }] } ∧
    { pool0 with inUse := [createVm 5 0] }.release 5 true 9 =
      { pool0 with inUse := [] } := by
  refine ⟨?_, ?_, ?_, ?_, ?_⟩
  · have h := c7_warm_pool_cycling.2.1 pool0 1 rfl rfl (by decide)
    simpa using h
  · have h := c7_warm_pool_cycling.1 { pool0 with idle := [createVm 7 0] } 2
      (createVm 7 0) [] rfl rfl
    simpa using h
  · exact c7_warm_pool_cycling.2.2.1
      { pool0 with inUse := [createVm 0 0, createVm 1 0, createVm 2 0, createVm 3 0],
                   nextIndex := 4 } 9 rfl rfl (by decide)
  · have h := c7_warm_pool_cycling.2.2.2.1 { pool0 with inUse := [createVm 5 0] }
      5 9 (createVm 5 0) (by decide) (by decide)
    simpa using h
  · have h := c7_warm_pool_cycling.2.2.2.2.1 { pool0 with inUse := [createVm 5 0] }
      5 9 (createVm 5 0) true (by decide) (Or.inl rfl)
    simpa using h

/-- Claim C3: matrix expansion computes the Cartesian product of
`matrix.values` in key order, removes every combination matching all pairs
of some exclusion, and processes inclusions in order against the evolving
list: a matched inclusion is dropped, an unmatched one is appended at the
end after filling every missing dimension with that dimension's first
listed value.  The spec's `os × node` example with one exclusion yields
exactly the 3 display names in product order; an unmatched `node=22`
inclusion is appended as `os=ubuntu, node=22`; a matched `os=alpine`
inclusion adds nothing. -/
theorem c3_matrix_expansion :
    ((expandMatrix exJob).map (fun e => e.displayName) =
      ["test (os=ubuntu, node=18)", "test (os=ubuntu, node=20)",
       "test (os=alpine, node=20)"]) ∧
    ((expandMatrix incJob).map (fun e => e.displayName) =
      ["test (os=ubuntu, node=18)", "test (os=ubuntu, node=20)",
       "test (os=alpine, node=18)", "test (os=alpine, node=20)",
       "test (os=ubuntu, node=22)"]) ∧
    ((expandMatrix matchedJob).map (fun e => e.displayName) =
      ["test (os=ubuntu, node=18)", "test (os=ubuntu, node=20)",
       "test (os=alpine, node=18)", "test (os=alpine, node=20)"]) ∧
    (∀ (values : List (String × List Scalar)) (mp : Option Nat), values ≠ [] →
      (generateCombinations ⟨values, [], [], mp⟩).map (fun c => c.values) =
        cartesianProduct values) ∧
    (∀ values : List (String × List Scalar),
      (cartesianProduct values).length =
        (values.map (fun kv => kv.2.length)).prod) ∧
    (∀ (values : List (String × List Scalar)) (ex : List Rec) (c : Rec),
      c ∈ (cartesianProduct values).filter (fun c => !shouldExclude c ex) ↔
        (c ∈ cartesianProduct values ∧ ∀ e ∈ ex, matchesAll e c = false)) ∧
    (∀ (values : List (String × List Scalar)) (combos : List Rec),
      applyIncludes values combos [] = combos) ∧
    (∀ (values : List (String × List Scalar)) (combos : List Rec)
       (inc : Rec) (rest : List Rec),
      combos.any (fun c => matchesAll inc c) = true →
      applyIncludes values combos (inc :: rest) =
        applyIncludes values combos rest) ∧
    (∀ (values : List (String × List Scalar)) (combos : List Rec)
       (inc : Rec) (rest : List Rec),
      combos.any (fun c => matchesAll inc c) = false →
      applyIncludes values combos (inc :: rest) =
        applyIncludes values (combos ++ [fillCombo values inc]) rest) ∧
    (∀ (values : List (String × List Scalar)) (inc : Rec) (d : String)
       (vs : List Scalar),
      (d, vs) ∈ values → (values.map Prod.fst).Nodup →
      lookupRec (fillCombo values inc) d =
        some ((lookupRec inc d).getD (vs.headD (Scalar.s "")))) ∧
    (∀ m : MatrixConfig, m.values ≠ [] →
      (generateCombinations m).map (fun c => c.values) =
        applyIncludes m.values
          ((cartesianProduct m.values).filter (fun c => !shouldExclude c m.exclude))
          m.includes ∧
      ∃ extra : List Rec,
        (generateCombinations m).map (fun c => c.values) =
          (cartesianProduct m.values).filter
            (fun c => !shouldExclude c m.exclude) ++ extra ∧
        ∀ r ∈ extra, ∃ inc ∈ m.includes, r = fillCombo m.values inc) := by
  refine ⟨by decide, by decide, by decide, ?_, cartesianProduct_length, ?_,
    ?_, ?_, ?_, lookupRec_fillCombo, ?_⟩
  · intro values mp hne
    have hemp : values.isEmpty = false := by
      cases values with
      | nil => exact absurd rfl hne
      | cons a as => rfl
    simp only [generateCombinations, hemp, Bool.false_eq_true, if_false,
      applyIncludes, List.foldl_nil]
    rw [filter_no_exclusions]
    exact combos_map_values _
  · intro values ex c
    constructor
    · intro hc
      obtain ⟨hmem, hval⟩ := List.mem_filter.mp hc
      refine ⟨hmem, ?_⟩
      have hex : shouldExclude c ex = false := by simpa using hval
      rw [shouldExclude] at hex
      intro e he
      simpa using List.any_eq_false.mp hex e he
    · rintro ⟨hmem, hall⟩
      refine List.mem_filter.mpr ⟨hmem, ?_⟩
      have hex : shouldExclude c ex = false := by
        rw [shouldExclude]
        apply List.any_eq_false.mpr
        intro e he
        simp [hall e he]
      simp [hex]
  · intro values combos
    rfl
  · intro values combos inc rest hmatch
    simp only [applyIncludes, List.foldl_cons]
    rw [hmatch, if_pos rfl]
  · intro values combos inc rest hmatch
    simp only [applyIncludes, List.foldl_cons]
    rw [hmatch, if_neg (by simp)]
  · intro m hne
    have hemp : m.values.isEmpty = false := by
      cases hv : m.values with
      | nil => exact absurd hv hne
      | cons a as => rfl
    constructor
    · simp only [generateCombinations, hemp, Bool.false_eq_true, if_false]
      exact combos_map_values _
    · obtain ⟨extra, heq, hmem⟩ := applyIncludes_append m.includes m.values
        ((cartesianProduct m.values).filter (fun c => !shouldExclude c m.exclude))
      refine ⟨extra, ?_, hmem⟩
      simp only [generateCombinations, hemp, Bool.false_eq_true, if_false]
      rw [heq]
      exact combos_map_values _

/-- Claim C3 witness: every hypothesized part evaluated with nonempty
includes — the `os × node` matrix, its matched `os=alpine` inclusion
dropped, its unmatched `node=22` inclusion appended after its missing `os`
dimension is filled with `ubuntu`, and the full decomposition of
`incJob`'s expansion. -/
theorem c3_matrix_expansion_witness :
    ((generateCombinations ⟨[("v", [.s "1", .s "2"])], [], [], none⟩).map
        (fun c => c.values) = cartesianProduct [("v", [.s "1", .s "2"])]) ∧
    (applyIncludes [("os", [.s "ubuntu", .s "alpine"]), ("node", [Scalar.n 18, .n 20])]
        (cartesianProduct
          [("os", [.s "ubuntu", .s "alpine"]), ("node", [Scalar.n 18, .n 20])])
        ([("os", Scalar.s "alpine")] :: []) =
      applyIncludes [("os", [.s "ubuntu", .s "alpine"]), ("node", [Scalar.n 18, .n 20])]
        (cartesianProduct
          [("os", [.s "ubuntu", .s "alpine"]), ("node", [Scalar.n 18, .n 20])]) []) ∧
    (applyIncludes [("os", [.s "ubuntu", .s "alpine"]), ("node", [Scalar.n 18, .n 20])]
        (cartesianProduct
          [("os", [.s "ubuntu", .s "alpine"]), ("node", [Scalar.n 18, .n 20])])
        ([("node", Scalar.n 22)] :: []) =
      applyIncludes [("os", [.s "ubuntu", .s "alpine"]), ("node", [Scalar.n 18, .n 20])]
        (cartesianProduct
          [("os", [.s "ubuntu", .s "alpine"]), ("node", [Scalar.n 18, .n 20])] ++
          [fillCombo [("os", [.s "ubuntu", .s "alpine"]), ("node", [Scalar.n 18, .n 20])]
            [("node", Scalar.n 22)]]) []) ∧
    (lookupRec (fillCombo
        [("os", [.s "ubuntu", .s "alpine"]), ("node", [Scalar.n 18, .n 20])]
        [("node", Scalar.n 22)]) "os" =
      some ((lookupRec [("node", Scalar.n 22)] "os").getD
        ([Scalar.s "ubuntu", Scalar.s "alpine"].headD (Scalar.s "")))) ∧
    ((generateCombinations
        { values := [("os", [.s "ubuntu", .s "alpine"]), ("node", [Scalar.n 18, .n 20])]
          includes := [[("node", Scalar.n 22)]] }).map (fun c => c.values) =
      applyIncludes [("os", [.s "ubuntu", .s "alpine"]), ("node", [Scalar.n 18, .n 20])]
        ((cartesianProduct
          [("os", [.s "ubuntu", .s "alpine"]), ("node", [Scalar.n 18, .n 20])]).filter
          (fun c => !shouldExclude c []))
        [[("node", Scalar.n 22)]]) :=
  ⟨c3_matrix_expansion.2.2.2.1 [("v", [.s "1", .s "2"])] none (by decide),
    c3_matrix_expansion.2.2.2.2.2.2.2.1
      [("os", [.s "ubuntu", .s "alpine"]), ("node", [Scalar.n 18, .n 20])]
      (cartesianProduct
        [("os", [.s "ubuntu", .s "alpine"]), ("node", [Scalar.n 18, .n 20])])
      [("os", Scalar.s "alpine")] [] (by decide),
    c3_matrix_expansion.2.2.2.2.2.2.2.2.1
      [("os", [.s "ubuntu", .s "alpine"]), ("node", [Scalar.n 18, .n 20])]
      (cartesianProduct
        [("os", [.s "ubuntu", .s "alpine"]), ("node", [Scalar.n 18, .n 20])])
      [("node", Scalar.n 22)] [] (by decide),
    c3_matrix_expansion.2.2.2.2.2.2.2.2.2.1
      [("os", [.s "ubuntu", .s "alpine"]), ("node", [Scalar.n 18, .n 20])]
      [("node", Scalar.n 22)] "os" [Scalar.s "ubuntu", Scalar.s "alpine"]
      (by decide) (by decide),
    (c3_matrix_expansion.2.2.2.2.2.2.2.2.2.2
      { values := [("os", [.s "ubuntu", .s "alpine"]), ("node", [Scalar.n 18, .n 20])]
        includes := [[("node", Scalar.n 22)]] } (by decide)).1⟩

/-- Claim C4, counterexample: the `::set-output` line of step `build` does
become an outputs-map entry, but the subsequent step's env placeholder
`$\x7b\x7b steps.build.outputs.version \x7d\x7d` is NOT resolved at
environment composition: the composed env maps `VER` to the literal
placeholder, not to `1.2.3`. -/
theorem c4_counterexample :
    ((runJob c4Job).steps.find? (fun p => p.1 == "build")).map
        (fun p => lookupEnv p.2.outputs "version") = some (some "1.2.3") ∧
    lookupEnv (composeStepEnv (jobBaseEnv [] c4Job) useStep) "VER" =
      some (output "build" "version") ∧
    some (output "build" "version") ≠ some "1.2.3" := by
  refine ⟨by decide, by decide, by decide⟩

/-- Claim C4 as amended: when the output a run step's process accumulates
contains the line `::set-output name=<n>::<v>` — surrounded by arbitrary
colon-free content, the line ending at a newline or at the end of the
output — that pair becomes the entry `n ↦ v` of the step's outputs map;
a subsequent step's env entries are composed verbatim (step env over job
env) with no placeholder resolution, so an env value that is a
`steps.*.outputs.*` placeholder reaches the process as the literal
placeholder string. -/
theorem c4_amended_outputs_parsed_env_not_resolved :
    (∀ (step : StepDef) (command : String) (sh : Option String) (b : ProcBehavior)
       (nm v pre post : String),
      step.kind = .run command sh b →
      (runCommand b step.timeout).2 =
        pre ++ "::set-output name=" ++ nm ++ "::" ++ v ++ post →
      (∀ c ∈ pre.data, c ≠ ':') →
      (post = "" ∨ post.data.head? = some '\n') →
      (∀ c ∈ post.data, c ≠ ':') →
      nm ≠ "" → (∀ c ∈ nm.data, c ≠ ':') → v ≠ "" → (∀ c ∈ v.data, c ≠ '\n') →
      lookupEnv (runStep step).outputs nm = some v) ∧
    (∀ (jobEnv : Env) (step : StepDef) (k val : String),
      (step.env.map Prod.fst).Nodup → lookupEnv step.env k = some val →
      lookupEnv (composeStepEnv jobEnv step) k = some val) := by
  constructor
  · intro step command sh b nm v pre post hkind hout hpre hpostnl hpostc
      hnm hnmc hv hvn
    have hpo : parseOutputs (runCommand b step.timeout).2 = [(nm, v)] := by
      rw [hout]
      exact parseOutputs_contains pre nm v post hpre hnm hnmc hv hvn
        hpostnl hpostc
    simp only [runStep, hkind]
    rw [hpo, List.foldl_cons, List.foldl_nil]
    unfold lookupEnv
    rw [lookup_setAssoc_self]
    rfl
  · intro jobEnv step k val hnodup hlook
    exact lookupEnv_merge_right step.env jobEnv k val hnodup hlook

/-- Claim C4 witness: the amended statement on a `build` step whose marker
line sits between other log output (`Build complete` before, `Done`
after), and on the `use` step's literal placeholder env. -/
theorem c4_amended_witness :
    lookupEnv (runStep buildStepSurrounded).outputs "version" = some "1.2.3" ∧
    lookupEnv (composeStepEnv (jobBaseEnv [] c4Job) useStep) "VER" =
      some (output "build" "version") :=
  ⟨c4_amended_outputs_parsed_env_not_resolved.1 buildStepSurrounded
      "emit-version" none
      ⟨0, "Build complete\n::set-output name=version::1.2.3\nDone", 10⟩
      "version" "1.2.3" "Build complete\n" "\nDone"
      rfl (by decide) (by decide) (by decide) (by decide) (by decide) (by decide)
      (by decide) (by decide),
    c4_amended_outputs_parsed_env_not_resolved.2 (jobBaseEnv [] c4Job) useStep
      "VER" (output "build" "version") (by decide) (by decide)⟩

/-- Claim C9, counterexample: the `matrix(k)` helper's placeholder does not
always match the interpolation regex — the regex captures `\w+` keys only,
so for the hyphenated key `node-version` (used in the repo's own tests)
`interpolateMatrix` leaves the placeholder unreplaced instead of producing
the binding `18`. -/
theorem c9_counterexample :
    interpolateMatrix (matrix "node-version") [("node-version", Scalar.s "18")] =
      matrix "node-version" ∧
    matrix "node-version" ≠ "18" ∧
    scalarString (Scalar.s "18") = "18" := by
  refine ⟨by decide, by decide, by decide⟩

/-- Claim C9 as amended: for every nonempty key `k` of word characters
(`[A-Za-z0-9_]`) bound in the matrix record, `matrix(k)` matches the
interpolation regex and `interpolateMatrix (matrix k) m` is exactly the
stringification of the binding. -/
theorem c9_amended_word_keys_interpolate :
    ∀ (k : String) (m : Rec) (v : Scalar),
      k ≠ "" → (∀ c ∈ k.data, isWordChar c = true) → lookupRec m k = some v →
      interpolateMatrix (matrix k) m = scalarString v := by
  intro k m v hk hw hv
  have hkd := data_ne_nil k hk
  have hm := tryMatrixMatch_exact m k hkd hw
  have h1 : (matrix k).data =
      '$' :: ("\x7b\x7b matrix.".data ++ (k.data ++ " \x7d\x7d".data)) := by
    show ("$\x7b\x7b matrix." ++ k ++ " \x7d\x7d").data = _
    rw [String.data_append, String.data_append]
    rw [show ("$\x7b\x7b matrix.".data : List Char) =
      '$' :: "\x7b\x7b matrix.".data from rfl]
    rw [List.cons_append, List.cons_append, List.append_assoc]
  rw [h1] at hm
  unfold interpolateMatrix
  rw [h1, List.length_cons]
  rw [interpGo_full m _ '$' _ _ hm]
  have hrep : matrixReplacement m k = scalarString v := by
    simp [matrixReplacement, hv]
  rw [hrep]

/-- Claim C9 witness: the amended statement on the word-character key
`node`. -/
theorem c9_amended_witness :
    interpolateMatrix (matrix "node") [("node", Scalar.n 18)] =
      scalarString (Scalar.n 18) :=
  c9_amended_word_keys_interpolate "node" [("node", Scalar.n 18)] (Scalar.n 18)
    (by decide) (by decide) (by decide)

end Zephyr
